import Mathlib

/-!
Verification of the rust-pssh parallel SSH executor (src/main.rs) against its
specification. The development shallowly embeds the program: the host-file
line reader, the partition filter, the per-host task body (timeout-wrapped
SSH block, success push, error branch), the whole-run control flow of main,
the lossy UTF-8 decoding of captured stdout, and a small-step model of the
semaphore-based admission control.
-/

namespace RustPssh

/-- Embedding of the Rust struct HostResult: host, status string
("success" or "error"), duration in milliseconds, optional output and
optional error description. -/
structure HostResult where
  host : String
  status : String
  duration_ms : Nat
  output : Option String
  error : Option String
deriving DecidableEq, Repr

/-! ## Host-file reading

`BufReader::lines()` splits the file content at each newline byte, strips the
newline and a carriage return directly before it, and yields no final empty
line when the content ends with a newline (or is empty). The program keeps
every yielded line (`filter_map(Result::ok)` only drops read errors, which do
not occur for well-formed content): there is no emptiness filter. -/

/-- One splitting step of BufRead lines: `acc` is the current line reversed;
on a newline the line is closed, dropping a carriage return that directly
precedes the newline. -/
def splitNL (acc : List Char) : List Char → List (List Char)
  | [] => [acc.reverse]
  | c :: rest =>
    if c = '\n' then
      (match acc with
       | '\r' :: acc2 => acc2.reverse
       | _ => acc.reverse) :: splitNL [] rest
    else
      splitNL (c :: acc) rest

/-- The list of lines BufReader::lines() yields for the given file content:
split at newlines, with no trailing empty line when the content ends in a
newline or is empty. -/
def fileLines (s : String) : List String :=
  let parts := splitNL [] s.toList
  let parts2 := if parts.getLast? = some ([] : List Char) then parts.dropLast else parts
  parts2.map (fun cs => String.mk cs)

/-! ## Host partitioning

`all_hosts.into_iter().enumerate().filter(|(i,_)| i % total == index).map(|(_,h)| h)`. -/

/-- The filtered_hosts expression of main: keep the hosts at positions `p`
with `p % total == index`. (Lean `% 0` is total; the run model below accounts
for the Rust panic of `i % 0` separately.) -/
def filteredHosts (allHosts : List String) (index total : Nat) : List String :=
  ((allHosts.enum).filter (fun p => p.1 % total = index)).map Prod.snd

/-! ## Lossy UTF-8 decoding of captured stdout

`String::from_utf8_lossy(&output.stdout)`: standard UTF-8 decoding where each
maximal invalid subpart is replaced by U+FFFD. The recursion consumes at
least one byte per step, so fuel equal to the byte count suffices. -/

/-- Whether a byte is a UTF-8 continuation byte (0x80..=0xBF). -/
def isCont (b : Nat) : Bool := 0x80 ≤ b && b ≤ 0xBF

/-- Valid range for the first continuation byte of a three-byte sequence
led by `b` (0xE0 ⇒ 0xA0..=0xBF, 0xED ⇒ 0x80..=0x9F, else 0x80..=0xBF). -/
def cont3Ok (b b1 : Nat) : Bool :=
  if b = 0xE0 then 0xA0 ≤ b1 && b1 ≤ 0xBF
  else if b = 0xED then 0x80 ≤ b1 && b1 ≤ 0x9F
  else isCont b1

/-- Valid range for the first continuation byte of a four-byte sequence
led by `b` (0xF0 ⇒ 0x90..=0xBF, 0xF4 ⇒ 0x80..=0x8F, else 0x80..=0xBF). -/
def cont4Ok (b b1 : Nat) : Bool :=
  if b = 0xF0 then 0x90 ≤ b1 && b1 ≤ 0xBF
  else if b = 0xF4 then 0x80 ≤ b1 && b1 ≤ 0x8F
  else isCont b1

/-- The replacement character U+FFFD. -/
def replChar : Char := Char.ofNat 0xFFFD

/-- Fuel-driven core of lossy UTF-8 decoding. Each step consumes at least
one byte, so the fuel never runs out when it starts at the byte count. -/
def utf8LossyGo : Nat → List Nat → List Char
  | 0, _ => []
  | _, [] => []
  | fuel + 1, b :: rest =>
    if b ≤ 0x7F then Char.ofNat b :: utf8LossyGo fuel rest
    else if 0xC2 ≤ b && b ≤ 0xDF then
      match rest with
      | [] => [replChar]
      | b1 :: rest1 =>
        if isCont b1 then
          Char.ofNat ((b - 0xC0) * 0x40 + (b1 - 0x80)) :: utf8LossyGo fuel rest1
        else replChar :: utf8LossyGo fuel rest
    else if 0xE0 ≤ b && b ≤ 0xEF then
      match rest with
      | [] => [replChar]
      | b1 :: rest1 =>
        if cont3Ok b b1 then
          match rest1 with
          | [] => [replChar]
          | b2 :: rest2 =>
            if isCont b2 then
              Char.ofNat ((b - 0xE0) * 0x1000 + (b1 - 0x80) * 0x40 + (b2 - 0x80)) ::
                utf8LossyGo fuel rest2
            else replChar :: utf8LossyGo fuel rest1
        else replChar :: utf8LossyGo fuel rest
    else if 0xF0 ≤ b && b ≤ 0xF4 then
      match rest with
      | [] => [replChar]
      | b1 :: rest1 =>
        if cont4Ok b b1 then
          match rest1 with
          | [] => [replChar]
          | b2 :: rest2 =>
            if isCont b2 then
              match rest2 with
              | [] => [replChar]
              | b3 :: rest3 =>
                if isCont b3 then
                  Char.ofNat ((b - 0xF0) * 0x40000 + (b1 - 0x80) * 0x1000 +
                      (b2 - 0x80) * 0x40 + (b3 - 0x80)) :: utf8LossyGo fuel rest3
                else replChar :: utf8LossyGo fuel rest2
            else replChar :: utf8LossyGo fuel rest1
        else replChar :: utf8LossyGo fuel rest
    else replChar :: utf8LossyGo fuel rest

/-- Total lossy UTF-8 decoding of a byte sequence to a string, the model of
String::from_utf8_lossy. -/
def utf8Lossy (bytes : List Nat) : String :=
  String.mk (utf8LossyGo bytes.length bytes)

/-! ## The per-host task body

The spawned future acquires a permit, wraps the SSH block in
tokio::time::timeout, drops the permit, and then runs
`if let Err(e) = res { push error record }`. `res` has type
Result(Result((), Box dyn Error), Elapsed): the pattern Err(e) matches only
the Elapsed value of the expired timeout, so an error returned by the inner
SSH block (res = Ok(Err(..))) matches nothing and no record is pushed. -/

/-- How the timeout-wrapped remote operation of one host resolves:
it completes with captured stdout after `durationMs`, the inner block
returns an error after `durationMs` (still before the deadline), or it is
still pending at the deadline (`extraMs` is the scheduler delay between
deadline expiry and the error branch reading the elapsed clock). -/
inductive RemoteResult where
  | success (stdoutBytes : List Nat) (durationMs : Nat)
  | failure (errMsg : String) (durationMs : Nat)
  | hang (extraMs : Nat)
deriving DecidableEq, Repr

/-- Debug formatting of the tokio elapsed-deadline error, the value `e` that
`format!("\x7b:?\x7d", e)` renders in the error branch. Modelled from the
derived Debug instance of the tokio timeout error type. -/
def elapsedDebug : String := "Elapsed(())"

/-- The records appended by one spawned task (src/main.rs lines 116-151),
given how its remote operation resolves. Success pushes one success record
inside the timed block; an expired deadline pushes one error record in the
`if let Err` branch; an inner SSH error is `Ok(Err(..))`, matches neither
push, and appends nothing. -/
def runHostTask (timeoutSecs : Nat) (host : String) (r : RemoteResult) : List HostResult :=
  match r with
  | .success bytes d =>
      [{ host := host, status := "success", duration_ms := d,
         output := some (utf8Lossy bytes), error := none }]
  | .failure _ _ => []
  | .hang extra =>
      [{ host := host, status := "error",
         duration_ms := timeoutSecs * 1000 + extra,
         output := none, error := some elapsedDebug }]

/-! ## The whole run -/

/-- Configuration of one run after argument parsing: the host-file content
(none when the file cannot be opened), the command, the parsed numeric
options, whether the logfile path can be created, and the partition spec. -/
structure RunConfig where
  hostfileContent : Option String
  command : String
  concurrency : Nat
  timeoutSecs : Nat
  logfileWritable : Bool
  index : Nat
  total : Nat

/-- How a run ends: normal exit, an early Err return from main before
dispatch (unreadable host file), the `i % 0` arithmetic panic inside the
partition filter, or the Err return when the logfile cannot be created. -/
inductive ExitKind where
  | ok
  | setupError
  | panicked
  | writeError
deriving DecidableEq, Repr

/-- Observable trace of one run: the hosts for which a task was spawned, the
aggregated result records, whether the log was written, and how the process
ended. -/
structure RunTrace where
  dispatchedHosts : List String
  outcomes : List HostResult
  logWritten : Bool
  exit : ExitKind
deriving DecidableEq, Repr

/-- The control flow of main: open and read the host file (an open failure
returns early), filter the hosts by the partition spec (`i % 0` panics as
soon as a first host is enumerated), spawn one task per filtered host, join
all tasks, then create the logfile and write the serialized records. The
aggregation order is modelled canonically by task index; every proved claim
is order-independent. `behavior` gives each task's remote resolution by its
position in the filtered list. -/
def runMain (cfg : RunConfig) (behavior : Nat → RemoteResult) : RunTrace :=
  match cfg.hostfileContent with
  | none => { dispatchedHosts := [], outcomes := [], logWritten := false, exit := .setupError }
  | some content =>
    let allHosts := fileLines content
    if cfg.total = 0 ∧ allHosts ≠ [] then
      { dispatchedHosts := [], outcomes := [], logWritten := false, exit := .panicked }
    else
      let hosts := filteredHosts allHosts cfg.index cfg.total
      let outcomes :=
        (hosts.enum.map (fun p => runHostTask cfg.timeoutSecs p.2 (behavior p.1))).flatten
      if cfg.logfileWritable then
        { dispatchedHosts := hosts, outcomes := outcomes, logWritten := true, exit := .ok }
      else
        { dispatchedHosts := hosts, outcomes := outcomes, logWritten := false, exit := .writeError }

/-! ## Positional characterization of the partition filter

`sel k H i T` restates the partition filter positionally: it keeps the
elements of `H` whose absolute position (`k` plus the relative position)
is congruent to `i` modulo `T`. `rankOf k p i T` counts the selected
positions before `p`, i.e. the slot at which position `p` lands. -/

/-- Positional restatement of the partition filter, recursing over the list
with the running absolute position `k`. -/
def sel : Nat → List String → Nat → Nat → List String
  | _, [], _, _ => []
  | k, h :: t, i, T => (if k % T = i then [h] else []) ++ sel (k + 1) t i T

/-- Number of positions `q < p` whose absolute position `k + q` is congruent
to `i` modulo `T`: the slot inside the partition where position `p` lands. -/
def rankOf : Nat → Nat → Nat → Nat → Nat
  | _, 0, _, _ => 0
  | k, p + 1, i, T => (if k % T = i then 1 else 0) + rankOf (k + 1) p i T

/-! ## Admission control

Semaphore::new(concurrency) bounds the number of tasks concurrently past
`acquire_owned` and before `drop(permit)`. A task acquires once, and every
path of the spawned body (success push, timeout, inner SSH error, and the
drop run on cancellation) reaches the single unconditional permit drop, so
each task releases exactly once. The small-step system below models each
task's admission lifecycle together with the semaphore's free-permit
counter. -/

/-- Lifecycle phase of one spawned task with respect to the admission
semaphore: not yet admitted, holding a permit, or finished with the permit
dropped. -/
inductive TaskPhase where
  | pending
  | admitted
  | done
deriving DecidableEq, Repr

/-- State of the admission system: the phase of every spawned task and the
number of free semaphore permits. -/
structure AdmState where
  tasks : List TaskPhase
  avail : Nat
deriving DecidableEq, Repr

/-- Number of tasks currently holding a permit (past admission, before
release). -/
def admittedCount (s : AdmState) : Nat :=
  s.tasks.countP (fun ph => ph == TaskPhase.admitted)

/-- Initial state: `n` spawned tasks all awaiting admission and `K` free
permits. -/
def initAdmState (K n : Nat) : AdmState :=
  { tasks := List.replicate n .pending, avail := K }

/-- One scheduler step: acquire_owned resumes a pending task only when a
free permit exists (the semaphore suspends it otherwise); a finishing task
drops its permit exactly once, returning it to the semaphore. -/
inductive AdmStep : AdmState → AdmState → Prop
  | acquire (s : AdmState) (idx : Nat) (hidx : s.tasks[idx]? = some .pending)
      (hav : 0 < s.avail) :
      AdmStep s { tasks := s.tasks.set idx .admitted, avail := s.avail - 1 }
  | finish (s : AdmState) (idx : Nat) (hidx : s.tasks[idx]? = some .admitted) :
      AdmStep s { tasks := s.tasks.set idx .done, avail := s.avail + 1 }

/-- States reachable from the initial state by scheduler steps. -/
inductive AdmReach (K n : Nat) : AdmState → Prop
  | init : AdmReach K n (initAdmState K n)
  | step {s s2 : AdmState} : AdmReach K n s → AdmStep s s2 → AdmReach K n s2

theorem enumFrom_filter_map_eq_sel (i T : Nat) :
    ∀ (k : Nat) (H : List String),
      ((List.enumFrom k H).filter (fun p => p.1 % T = i)).map Prod.snd = sel k H i T
  | _, [] => rfl
  | k, h :: t => by
    simp only [List.enumFrom, List.filter_cons, sel]
    by_cases hk : k % T = i
    · simp [hk, enumFrom_filter_map_eq_sel i T (k + 1) t]
    · simp [hk, enumFrom_filter_map_eq_sel i T (k + 1) t]

theorem filteredHosts_eq_sel (H : List String) (i T : Nat) :
    filteredHosts H i T = sel 0 H i T := by
  unfold filteredHosts
  rw [show H.enum = List.enumFrom 0 H from rfl]
  exact enumFrom_filter_map_eq_sel i T 0 H

theorem sel_getElem (i T : Nat) :
    ∀ (H : List String) (k p : Nat), p < H.length → (k + p) % T = i →
      (sel k H i T)[rankOf k p i T]? = H[p]?
  | [], _, p, hp, _ => absurd hp (by simp)
  | h :: t, k, 0, _, hmod => by
    have hk : k % T = i := by simpa using hmod
    simp [sel, rankOf, hk]
  | h :: t, k, p + 1, hp, hmod => by
    have hp2 : p < t.length := by simpa using hp
    have hmod2 : (k + 1 + p) % T = i := by
      rw [show k + 1 + p = k + (p + 1) from by omega]; exact hmod
    have ih := sel_getElem i T t (k + 1) p hp2 hmod2
    by_cases hk : k % T = i
    · have e1 : sel k (h :: t) i T = h :: sel (k + 1) t i T := by simp [sel, hk]
      have e2 : rankOf k (p + 1) i T = rankOf (k + 1) p i T + 1 := by
        show (if k % T = i then 1 else 0) + rankOf (k + 1) p i T = rankOf (k + 1) p i T + 1
        rw [if_pos hk]; omega
      rw [e1, e2, List.getElem?_cons_succ, List.getElem?_cons_succ]
      exact ih
    · have e1 : sel k (h :: t) i T = sel (k + 1) t i T := by simp [sel, hk]
      have e2 : rankOf k (p + 1) i T = rankOf (k + 1) p i T := by
        show (if k % T = i then 1 else 0) + rankOf (k + 1) p i T = rankOf (k + 1) p i T
        rw [if_neg hk]; omega
      rw [e1, e2, List.getElem?_cons_succ]
      exact ih

theorem rankOf_closed (T : Nat) (hT : 0 < T) (i : Nat) (hi : i < T) :
    ∀ p : Nat, rankOf 0 p i T = p / T + (if i < p % T then 1 else 0) := by
  have hstep : ∀ (p k : Nat),
      rankOf k (p + 1) i T = rankOf k p i T + (if (k + p) % T = i then 1 else 0) := by
    intro p
    induction p with
    | zero => intro k; simp [rankOf]
    | succ p ih =>
      intro k
      have h1 : rankOf k (p + 1 + 1) i T = (if k % T = i then 1 else 0) + rankOf (k + 1) (p + 1) i T := rfl
      rw [h1, ih (k + 1), show k + 1 + p = k + (p + 1) from by omega,
        show rankOf k (p + 1) i T = (if k % T = i then 1 else 0) + rankOf (k + 1) p i T from rfl]
      omega
  intro p
  induction p with
  | zero => simp [rankOf]
  | succ p ih =>
    rw [hstep p 0, ih]
    have hdm := Nat.div_add_mod p T
    have hr : p % T < T := Nat.mod_lt _ hT
    by_cases hcase : p % T + 1 < T
    · have hmod : (p + 1) % T = p % T + 1 := by
        conv_lhs => rw [show p + 1 = T * (p / T) + (p % T + 1) from by omega]
        rw [Nat.mul_add_mod, Nat.mod_eq_of_lt hcase]
      have hdiv : (p + 1) / T = p / T := by
        conv_lhs => rw [show p + 1 = T * (p / T) + (p % T + 1) from by omega]
        rw [Nat.mul_add_div hT, Nat.div_eq_of_lt hcase, Nat.add_zero]
      rw [hmod, hdiv]
      simp only [Nat.zero_add]
      split_ifs <;> omega
    · have hTe : p % T + 1 = T := by omega
      have hmul : T * (p / T + 1) = T * (p / T) + T := by ring
      have hmod : (p + 1) % T = 0 := by
        conv_lhs => rw [show p + 1 = T * (p / T + 1) from by omega]
        exact Nat.mul_mod_right _ _
      have hdiv : (p + 1) / T = p / T + 1 := by
        conv_lhs => rw [show p + 1 = T * (p / T + 1) from by omega]
        exact Nat.mul_div_cancel_left _ hT
      rw [hmod, hdiv]
      simp only [Nat.zero_add]
      split_ifs <;> omega

theorem sel_mod_one : ∀ (k : Nat) (H : List String), sel k H 0 1 = H
  | _, [] => rfl
  | k, h :: t => by simp [sel, Nat.mod_one, sel_mod_one (k + 1) t]

theorem filteredHosts_zero_one (H : List String) : filteredHosts H 0 1 = H := by
  rw [filteredHosts_eq_sel, sel_mod_one]

theorem sum_map_addSplit {α : Type} (f g : α → Nat) :
    ∀ l : List α, (l.map (fun x => f x + g x)).sum = (l.map f).sum + (l.map g).sum
  | [] => rfl
  | x :: t => by
    simp only [List.map_cons, List.sum_cons, sum_map_addSplit f g t]
    omega

theorem sum_ind_range (m j : Nat) :
    ∀ T : Nat, j < T → ((List.range T).map (fun i => if j = i then m else 0)).sum = m
  | 0, h => absurd h (by omega)
  | T + 1, h => by
    rw [List.range_succ, List.map_append, List.sum_append]
    by_cases hj : j = T
    · subst hj
      have hz : ((List.range j).map (fun i => if j = i then m else 0)).sum = 0 := by
        apply List.sum_eq_zero
        intro x hx
        rcases List.mem_map.1 hx with ⟨i, hi, hval⟩
        have hij : i < j := List.mem_range.1 hi
        rw [← hval, if_neg (by omega)]
      simp [hz]
    · have hjT : j < T := by omega
      rw [sum_ind_range m j T hjT]
      simp [hj]

theorem count_sel (a : String) (T : Nat) (hT : 0 < T) :
    ∀ (H : List String) (k : Nat),
      ((List.range T).map (fun i => (sel k H i T).count a)).sum = H.count a
  | [], k => by
    simp only [List.count_nil]
    apply List.sum_eq_zero
    intro x hx
    rcases List.mem_map.1 hx with ⟨i, _, hval⟩
    rw [← hval]
    rfl
  | h :: t, k => by
    have hsplit : ∀ i : Nat, (sel k (h :: t) i T).count a =
        (if k % T = i then List.count a [h] else 0) + (sel (k + 1) t i T).count a := by
      intro i
      show ((if k % T = i then [h] else []) ++ sel (k + 1) t i T).count a = _
      rw [List.count_append]
      by_cases hk : k % T = i <;> simp [hk]
    calc ((List.range T).map (fun i => (sel k (h :: t) i T).count a)).sum
        = ((List.range T).map (fun i =>
            (if k % T = i then List.count a [h] else 0) + (sel (k + 1) t i T).count a)).sum := by
            exact congrArg List.sum (List.map_congr_left (fun i _ => hsplit i))
      _ = ((List.range T).map (fun i => if k % T = i then List.count a [h] else 0)).sum +
          ((List.range T).map (fun i => (sel (k + 1) t i T).count a)).sum :=
            sum_map_addSplit _ _ _
      _ = List.count a [h] + t.count a := by
            rw [sum_ind_range (List.count a [h]) (k % T) T (Nat.mod_lt _ hT),
              count_sel a T hT t (k + 1)]
      _ = (h :: t).count a := by
            simp only [List.count_cons, List.count_nil]
            omega

theorem countP_set_of_getElem {α : Type} (p : α → Bool) :
    ∀ (l : List α) (idx : Nat) (a b : α), l[idx]? = some a →
      (l.set idx b).countP p + (if p a then 1 else 0) = l.countP p + (if p b then 1 else 0)
  | [], idx, a, b, h => by simp at h
  | x :: t, 0, a, b, h => by
    have hx : x = a := by simpa using h
    subst hx
    simp only [List.set_cons_zero, List.countP_cons]
    omega
  | x :: t, idx + 1, a, b, h => by
    have h2 : t[idx]? = some a := by simpa using h
    have ih := countP_set_of_getElem p t idx a b h2
    simp only [List.set_cons_succ, List.countP_cons]
    omega

theorem admReach_invariant {K n : Nat} {s : AdmState} (h : AdmReach K n s) :
    s.tasks.length = n ∧ s.avail + admittedCount s = K := by
  induction h with
  | init =>
    refine ⟨by simp [initAdmState], ?_⟩
    have hz : admittedCount (initAdmState K n) = 0 := by
      apply List.countP_eq_zero.2
      intro a ha
      have hap : a = TaskPhase.pending := List.eq_of_mem_replicate ha
      subst hap
      decide
    rw [hz]
    simp [initAdmState]
  | step hr hstep ih =>
    rename_i s s2
    cases hstep with
    | acquire idx hidx hav =>
      have hcnt := countP_set_of_getElem (fun ph => ph == TaskPhase.admitted)
        s.tasks idx TaskPhase.pending TaskPhase.admitted hidx
      simp at hcnt
      have h1 := ih.1
      have h2 := ih.2
      simp only [admittedCount] at h2 ⊢
      refine ⟨?_, ?_⟩
      · show (s.tasks.set idx TaskPhase.admitted).length = n
        simp [h1]
      · show s.avail - 1 +
          (s.tasks.set idx TaskPhase.admitted).countP (fun ph => ph == TaskPhase.admitted) = K
        omega
    | finish idx hidx =>
      have hcnt := countP_set_of_getElem (fun ph => ph == TaskPhase.admitted)
        s.tasks idx TaskPhase.admitted TaskPhase.done hidx
      simp at hcnt
      have h1 := ih.1
      have h2 := ih.2
      simp only [admittedCount] at h2 ⊢
      refine ⟨?_, ?_⟩
      · show (s.tasks.set idx TaskPhase.done).length = n
        simp [h1]
      · show s.avail + 1 +
          (s.tasks.set idx TaskPhase.done).countP (fun ph => ph == TaskPhase.admitted) = K
        omega

theorem sel_sublist (i T : Nat) : ∀ (k : Nat) (H : List String), (sel k H i T).Sublist H
  | _, [] => List.Sublist.refl []
  | k, h :: t => by
    show ((if k % T = i then [h] else []) ++ sel (k + 1) t i T).Sublist (h :: t)
    by_cases hk : k % T = i
    · rw [if_pos hk]
      exact List.Sublist.cons₂ h (sel_sublist i T (k + 1) t)
    · rw [if_neg hk]
      exact List.Sublist.cons h (sel_sublist i T (k + 1) t)

theorem runHostTask_mem_fields (t : Nat) (h : String) (r : RemoteResult) (o : HostResult)
    (ho : o ∈ runHostTask t h r) :
    (o.status = "success" ↔ (o.error = none ∧ o.output ≠ none)) ∧
    (o.status = "error" ↔ (o.output = none ∧ o.error ≠ none)) := by
  cases r with
  | success bytes d =>
    have he : o = HostResult.mk h "success" d (some (utf8Lossy bytes)) none := by
      simpa [runHostTask] using ho
    subst he
    refine ⟨?_, ?_⟩ <;> simp
  | failure msg d => simp [runHostTask] at ho
  | hang extra =>
    have he : o = HostResult.mk h "error" (t * 1000 + extra) none (some elapsedDebug) := by
      simpa [runHostTask] using ho
    subst he
    refine ⟨?_, ?_⟩ <;> simp

theorem outcomes_mem (cfg : RunConfig) (b : Nat → RemoteResult) (o : HostResult)
    (ho : o ∈ (runMain cfg b).outcomes) :
    ∃ h r, o ∈ runHostTask cfg.timeoutSecs h r := by
  rcases hcf : cfg.hostfileContent with _ | content
  · simp [runMain, hcf] at ho
  · by_cases hc : cfg.total = 0 ∧ fileLines content ≠ []
    · simp [runMain, hcf, hc] at ho
    · have ho2 : o ∈ ((filteredHosts (fileLines content) cfg.index cfg.total).enum.map
          (fun p => runHostTask cfg.timeoutSecs p.2 (b p.1))).flatten := by
        by_cases hw : cfg.logfileWritable
        · simpa [runMain, hcf, hc, hw] using ho
        · simpa [runMain, hcf, hc, hw] using ho
      rcases List.mem_flatten.1 ho2 with ⟨l, hl, hol⟩
      rcases List.mem_map.1 hl with ⟨p, _, hpl⟩
      exact ⟨p.2, b p.1, hpl ▸ hol⟩

/-- C1: refuted by the code. The claim says each dispatched host yields
exactly one ExecutionOutcome on every path. But for a host whose SSH block
returns an error before the deadline, `res` is Ok(Err(..)), the
`if let Err(e) = res` branch does not match, and no record is pushed: one
host is dispatched, zero records are appended. -/
theorem c1_outcome_count_bug :
    (runMain (⟨some "only", "uptime", 500, 10, true, 0, 1⟩ : RunConfig)
      (fun _ => .failure "connection refused" 7)).dispatchedHosts.length = 1 ∧
    (runMain (⟨some "only", "uptime", 500, 10, true, 0, 1⟩ : RunConfig)
      (fun _ => .failure "connection refused" 7)).outcomes.length = 0 := by decide

/-- C2: refuted by the code. A transport error is not converted into a
Failure record: with one succeeding host and one host whose connection is
refused, the run completes normally but only the success record exists; the
failing host leaves no record at all (the other host is indeed
unaffected). -/
theorem c2_error_conversion_bug :
    (runMain (⟨some "good\nbad", "uptime", 500, 10, true, 0, 1⟩ : RunConfig)
      (fun k => if k = 0 then .success [0x68, 0x69] 50
                else .failure "Connection refused" 120)).exit = ExitKind.ok ∧
    (runMain (⟨some "good\nbad", "uptime", 500, 10, true, 0, 1⟩ : RunConfig)
      (fun k => if k = 0 then .success [0x68, 0x69] 50
                else .failure "Connection refused" 120)).dispatchedHosts = ["good", "bad"] ∧
    (runMain (⟨some "good\nbad", "uptime", 500, 10, true, 0, 1⟩ : RunConfig)
      (fun k => if k = 0 then .success [0x68, 0x69] 50
                else .failure "Connection refused" 120)).outcomes =
      [{ host := "good", status := "success", duration_ms := 50,
         output := some "hi", error := none }] := by decide

/-- C3: the partitioner keeps, for each index, exactly the hosts at
positions p with p mod T = index (first conjunct, definitional), preserving
original relative order (second conjunct, sublist); reordering by original
position reconstructs H exactly — the host at position p sits in partition
p mod T at slot p / T (third conjunct) — and each host occurrence appears
in exactly one partition: over index = 0..T-1 the partitions' occurrence
counts of every host sum to its count in H (fourth conjunct). -/
theorem c3_partition_complete_disjoint (H : List String) (T : Nat) (hT : 1 ≤ T) :
    (∀ i, filteredHosts H i T = ((H.enum.filter (fun p => p.1 % T = i)).map Prod.snd)) ∧
    (∀ i, (filteredHosts H i T).Sublist H) ∧
    (∀ p, p < H.length → (filteredHosts H (p % T) T)[p / T]? = H[p]?) ∧
    (∀ a : String,
      ((List.range T).map (fun i => (filteredHosts H i T).count a)).sum = H.count a) := by
  have hT0 : 0 < T := hT
  refine ⟨fun i => rfl, ?_, ?_, ?_⟩
  · intro i
    rw [filteredHosts_eq_sel]
    exact sel_sublist i T 0 H
  · intro p hp
    have hmod : (0 + p) % T = p % T := by simp
    have hget := sel_getElem (p % T) T H 0 p hp hmod
    have hrank : rankOf 0 p (p % T) T = p / T := by
      rw [rankOf_closed T hT0 (p % T) (Nat.mod_lt _ hT0) p]
      simp
    rw [filteredHosts_eq_sel, ← hrank]
    exact hget
  · intro a
    have hpt : ∀ i, filteredHosts H i T = sel 0 H i T := fun i => filteredHosts_eq_sel H i T
    calc ((List.range T).map (fun i => (filteredHosts H i T).count a)).sum
        = ((List.range T).map (fun i => (sel 0 H i T).count a)).sum :=
          congrArg List.sum (List.map_congr_left (fun i _ => by rw [hpt i]))
      _ = H.count a := count_sel a T hT0 H 0

/-- Witness for c3_partition_complete_disjoint on the spec's own example:
hosts [a,b,c,d] with T = 2. -/
theorem c3_partition_complete_disjoint_witness :
    (∀ i, filteredHosts ["a", "b", "c", "d"] i 2 =
      (((["a", "b", "c", "d"] : List String).enum.filter (fun p => p.1 % 2 = i)).map Prod.snd)) ∧
    (∀ i, (filteredHosts ["a", "b", "c", "d"] i 2).Sublist ["a", "b", "c", "d"]) ∧
    (∀ p, p < (["a", "b", "c", "d"] : List String).length →
      (filteredHosts ["a", "b", "c", "d"] (p % 2) 2)[p / 2]? =
        (["a", "b", "c", "d"] : List String)[p]?) ∧
    (∀ a : String,
      ((List.range 2).map (fun i => (filteredHosts ["a", "b", "c", "d"] i 2).count a)).sum =
        (["a", "b", "c", "d"] : List String).count a) :=
  c3_partition_complete_disjoint ["a", "b", "c", "d"] 2 (by decide)

/-- C4 counterexample: with index = 5 ≥ total = 2 the claim demands an
InvalidPartition failure aborting the run; instead the run completes
normally (exit ok), dispatches no task, and writes the empty log. -/
theorem c4_counterexample :
    (runMain (⟨some "a", "c", 1, 10, true, 5, 2⟩ : RunConfig)
      (fun _ => .hang 0)).exit = ExitKind.ok ∧
    (runMain (⟨some "a", "c", 1, 10, true, 5, 2⟩ : RunConfig)
      (fun _ => .hang 0)).dispatchedHosts = [] ∧
    (runMain (⟨some "a", "c", 1, 10, true, 5, 2⟩ : RunConfig)
      (fun _ => .hang 0)).logWritten = true := by decide

/-- C4 (amended): when total = 0 and the host list is non-empty the run
aborts before any task is dispatched — by the `i % 0` arithmetic panic, not
an InvalidPartition error; when total ≥ 1 an index ≥ total is not rejected:
no setup failure occurs and the run proceeds with an empty partition. -/
theorem c4_partition_spec_behavior (cfg : RunConfig) (b : Nat → RemoteResult) (content : String)
    (hc : cfg.hostfileContent = some content) :
    (cfg.total = 0 → fileLines content ≠ [] →
      runMain cfg b = RunTrace.mk [] [] false ExitKind.panicked) ∧
    (0 < cfg.total →
      (runMain cfg b).exit ≠ ExitKind.panicked ∧ (runMain cfg b).exit ≠ ExitKind.setupError) := by
  constructor
  · intro h0 hne
    simp [runMain, hc, h0, hne]
  · intro hpos
    have hcond : ¬ (cfg.total = 0 ∧ fileLines content ≠ []) :=
      fun hcon => absurd hcon.1 (by omega)
    by_cases hw : cfg.logfileWritable
    · simp [runMain, hc, hcond, hw]
    · simp [runMain, hc, hcond, hw]

/-- Witness for c4_partition_spec_behavior: index 5, total 2, one host. -/
theorem c4_partition_spec_behavior_witness :
    (runMain (⟨some "a", "c", 1, 10, true, 5, 2⟩ : RunConfig)
      (fun _ => .hang 0)).exit ≠ ExitKind.panicked ∧
    (runMain (⟨some "a", "c", 1, 10, true, 5, 2⟩ : RunConfig)
      (fun _ => .hang 0)).exit ≠ ExitKind.setupError :=
  (c4_partition_spec_behavior (⟨some "a", "c", 1, 10, true, 5, 2⟩ : RunConfig)
    (fun _ => .hang 0) "a" rfl).2 (by decide)

/-- C5 counterexample: with an uncreatable logfile path the claim demands
an abort before any task is dispatched and no partial output; instead the
task for the single host is dispatched and runs to completion, and the
failure surfaces only at the final write. -/
theorem c5_counterexample :
    (runMain (⟨some "h", "c", 1, 10, false, 0, 1⟩ : RunConfig)
      (fun _ => .hang 0)).dispatchedHosts = ["h"] ∧
    (runMain (⟨some "h", "c", 1, 10, false, 0, 1⟩ : RunConfig)
      (fun _ => .hang 0)).outcomes.length = 1 ∧
    (runMain (⟨some "h", "c", 1, 10, false, 0, 1⟩ : RunConfig)
      (fun _ => .hang 0)).exit = ExitKind.writeError := by decide

/-- C5 (amended): an unreadable host file aborts the run before any task is
dispatched with no output produced, and a log is only ever written when the
logfile path is writable; but an uncreatable logfile path does not abort
before dispatch — with a readable host file and total ≥ 1 the full
partition is dispatched and the failure surfaces only at the final write. -/
theorem c5_setup_failure_behavior (cfg : RunConfig) (b : Nat → RemoteResult) :
    (cfg.hostfileContent = none →
      runMain cfg b = RunTrace.mk [] [] false ExitKind.setupError) ∧
    ((runMain cfg b).logWritten = true → cfg.logfileWritable = true) ∧
    (∀ content, cfg.hostfileContent = some content → cfg.logfileWritable = false →
      0 < cfg.total →
      (runMain cfg b).dispatchedHosts = filteredHosts (fileLines content) cfg.index cfg.total ∧
      (runMain cfg b).exit = ExitKind.writeError) := by
  refine ⟨?_, ?_, ?_⟩
  · intro hnone
    simp [runMain, hnone]
  · intro hw
    cases hlw : cfg.logfileWritable
    · exfalso
      rcases hcf : cfg.hostfileContent with _ | content
      · rw [show runMain cfg b = RunTrace.mk [] [] false ExitKind.setupError
            from by simp [runMain, hcf]] at hw
        simp at hw
      · by_cases hc : cfg.total = 0 ∧ fileLines content ≠ []
        · rw [show runMain cfg b = RunTrace.mk [] [] false ExitKind.panicked
            from by simp [runMain, hcf, hc]] at hw
          simp at hw
        · simp [runMain, hcf, hc, hlw] at hw
    · rfl
  · intro content hcf hlw hpos
    have hcond : ¬ (cfg.total = 0 ∧ fileLines content ≠ []) :=
      fun hcon => absurd hcon.1 (by omega)
    constructor
    · simp [runMain, hcf, hcond, hlw]
    · simp [runMain, hcf, hcond, hlw]

/-- Witness for c5_setup_failure_behavior: unwritable logfile, one host. -/
theorem c5_setup_failure_behavior_witness :
    (runMain (⟨some "h", "c", 1, 10, false, 0, 1⟩ : RunConfig)
      (fun _ => .hang 0)).dispatchedHosts = filteredHosts (fileLines "h") 0 1 ∧
    (runMain (⟨some "h", "c", 1, 10, false, 0, 1⟩ : RunConfig)
      (fun _ => .hang 0)).exit = ExitKind.writeError :=
  (c5_setup_failure_behavior (⟨some "h", "c", 1, 10, false, 0, 1⟩ : RunConfig)
    (fun _ => .hang 0)).2.2 "h" rfl rfl (by decide)

/-- C6 counterexample: at timeout the recorded error field is the debug
rendering of the elapsed-deadline error, "Elapsed(())", not the literal
string "timeout" the claim specifies. -/
theorem c6_counterexample :
    (runHostTask 1 "slow" (.hang 3)).map (fun o => o.error) = [some "Elapsed(())"] ∧
    some "Elapsed(())" ≠ some "timeout" ∧
    (runHostTask 1 "slow" (.hang 3)).map (fun o => o.duration_ms) = [1003] := by decide

/-- C6 (amended): a task whose remote operation is still pending at the
deadline is cancelled (no success record exists) and produces exactly one
Failure record whose error field is the elapsed-deadline error's debug
rendering "Elapsed(())" — denoting timeout, though not the literal string
"timeout" — and whose duration is the configured timeout in milliseconds
plus only the scheduler delay: never below the timeout. -/
theorem c6_timeout_outcome (t : Nat) (h : String) (extra : Nat) :
    runHostTask t h (.hang extra) =
      [{ host := h, status := "error", duration_ms := t * 1000 + extra,
         output := none, error := some elapsedDebug }] ∧
    t * 1000 ≤ t * 1000 + extra :=
  ⟨rfl, Nat.le_add_right _ _⟩

/-- C7: every ExecutionOutcome ever recorded by a run satisfies
status = "success" iff error is null and output is present, and
status = "error" iff output is null and error is present. -/
theorem c7_status_field_invariant (cfg : RunConfig) (b : Nat → RemoteResult) (o : HostResult)
    (ho : o ∈ (runMain cfg b).outcomes) :
    (o.status = "success" ↔ (o.error = none ∧ o.output ≠ none)) ∧
    (o.status = "error" ↔ (o.output = none ∧ o.error ≠ none)) := by
  rcases outcomes_mem cfg b o ho with ⟨h, r, hmem⟩
  exact runHostTask_mem_fields cfg.timeoutSecs h r o hmem

/-- Witness for c7_status_field_invariant at a concrete timed-out run. -/
theorem c7_status_field_invariant_witness :
    ((HostResult.mk "h" "error" 10000 none (some elapsedDebug)).status = "success" ↔
      ((HostResult.mk "h" "error" 10000 none (some elapsedDebug)).error = none ∧
        (HostResult.mk "h" "error" 10000 none (some elapsedDebug)).output ≠ none)) ∧
    ((HostResult.mk "h" "error" 10000 none (some elapsedDebug)).status = "error" ↔
      ((HostResult.mk "h" "error" 10000 none (some elapsedDebug)).output = none ∧
        (HostResult.mk "h" "error" 10000 none (some elapsedDebug)).error ≠ none)) :=
  c7_status_field_invariant (⟨some "h", "c", 1, 10, true, 0, 1⟩ : RunConfig)
    (fun _ => .hang 0)
    (HostResult.mk "h" "error" 10000 none (some elapsedDebug))
    (by decide)

/-- C8 counterexample: the host file content "a\n\nb" has an empty middle
line; the claim says empty lines do not become connection targets, but the
empty string is dispatched as a host. -/
theorem c8_counterexample :
    (runMain (⟨some "a\n\nb", "c", 1, 10, true, 0, 1⟩ : RunConfig)
      (fun _ => .hang 0)).dispatchedHosts = ["a", "", "b"] ∧
    "" ∈ (runMain (⟨some "a\n\nb", "c", 1, 10, true, 0, 1⟩ : RunConfig)
      (fun _ => .hang 0)).dispatchedHosts := by decide

/-- C8 (amended): every line the reader yields — empty lines included —
becomes a connection target: with a single instance (index 0, total 1) the
dispatched hosts are exactly the file's lines, with no emptiness filter. -/
theorem c8_every_line_dispatched (content cmd : String) (K t : Nat) (b : Nat → RemoteResult) :
    (runMain (⟨some content, cmd, K, t, true, 0, 1⟩ : RunConfig) b).dispatchedHosts =
      fileLines content := by
  simp [runMain, filteredHosts_zero_one]

/-- C9: in every reachable state of the admission system at most K tasks
are simultaneously past admission and before release; free permits plus
held permits always equal K (each successful acquire is balanced by exactly
one release); and once all tasks are done every permit has been returned —
no slot is leaked. -/
theorem c9_admission_bound (K n : Nat) (s : AdmState) (h : AdmReach K n s) :
    admittedCount s ≤ K ∧ s.avail + admittedCount s = K ∧
    ((∀ ph ∈ s.tasks, ph = TaskPhase.done) → s.avail = K) := by
  have hi := admReach_invariant h
  have h2 := hi.2
  refine ⟨by omega, h2, ?_⟩
  intro hall
  have hz : admittedCount s = 0 := by
    apply List.countP_eq_zero.2
    intro a ha
    have hd := hall a ha
    subst hd
    decide
  omega

/-- Witness for c9_admission_bound: K = 1, two tasks, after the first
acquire. -/
theorem c9_admission_bound_witness :
    admittedCount { tasks := [TaskPhase.admitted, TaskPhase.pending], avail := 0 } ≤ 1 ∧
    AdmState.avail { tasks := [TaskPhase.admitted, TaskPhase.pending], avail := 0 } +
      admittedCount { tasks := [TaskPhase.admitted, TaskPhase.pending], avail := 0 } = 1 ∧
    ((∀ ph ∈ AdmState.tasks { tasks := [TaskPhase.admitted, TaskPhase.pending], avail := 0 },
        ph = TaskPhase.done) →
      AdmState.avail { tasks := [TaskPhase.admitted, TaskPhase.pending], avail := 0 } = 1) :=
  c9_admission_bound 1 2 _
    (AdmReach.step AdmReach.init (AdmStep.acquire (initAdmState 1 2) 0 rfl (by decide)))

/-- C10: on the success path the output field is the lossy UTF-8 decoding
of the captured stdout bytes; the decoding is a total function, so for
every byte sequence — valid UTF-8 or not — the task records exactly one
Success outcome whose output is present. -/
theorem c10_lossy_output_total (t : Nat) (h : String) (bytes : List Nat) (d : Nat) :
    runHostTask t h (.success bytes d) =
      [{ host := h, status := "success", duration_ms := d,
         output := some (utf8Lossy bytes), error := none }] := rfl

end RustPssh
